import Mathlib

/-!
Shallow embedding of the request-routing and streaming-normalization layer
of the ai-warp repository (LiteLLM provider path), together with proofs of
the frozen claims about it.

The embedding follows the TypeScript source:
  * `src/packages/ai-provider/src/providers/litellm.ts`
    (`LiteLLMProvider.request`, `chatHistoryToMessages`,
    `LiteLLMStreamTransformer._transform`, `mapResponseResult`);
  * `src/unnamed/part_000` (the undici client: `checkResponse`,
    `createLiteLLMClient` with `init` / `request` / `stream`).
JavaScript truthiness on strings (the empty string is falsy) is modelled
explicitly by `strTruthy` / `optTruthy`, since the source branches on it
(`options.context ? ... : ...`, `!event.event`, `if (finish)`,
`apiKey && {...}`).
-/

/-- JavaScript truthiness of a string: the empty string is falsy. -/
def strTruthy (s : String) : Bool := s ≠ ""

/-- JavaScript truthiness of a possibly-absent string:
`undefined`/`null` and the empty string are falsy. -/
def optTruthy : Option String → Bool
  | none => false
  | some s => strTruthy s

/-- `AiResponseResult` from `src/lib/ai.ts`: the three-valued completion
status of a model response. -/
inductive AiResponseResult where
  | COMPLETE
  | INCOMPLETE_MAX_TOKENS
  | INCOMPLETE_UNKNOWN
deriving DecidableEq, Repr

/-- `mapResponseResult` from litellm.ts lines 209-219: maps a provider
finish reason (`string | undefined`) to an `AiResponseResult`. -/
def mapResponseResult : Option String → AiResponseResult
  | some "stop" => .COMPLETE
  | some "length" => .INCOMPLETE_MAX_TOKENS
  | _ => .INCOMPLETE_UNKNOWN

/-- Role of a `LiteLLMMessage` (litellm.ts lines 36-39). -/
inductive LiteLLMRole where
  | system
  | user
  | assistant
deriving DecidableEq, Repr

/-- `LiteLLMMessage` from litellm.ts lines 36-39. -/
structure LiteLLMMessage where
  role : LiteLLMRole
  content : String
deriving DecidableEq, Repr

/-- One entry of `AiChatHistory` (provider.ts lines 11-14). -/
structure ChatHistoryEntry where
  prompt : String
  response : String
deriving DecidableEq, Repr

/-- `LiteLLMProvider.chatHistoryToMessages` (litellm.ts lines 129-141):
`undefined` history gives `[]`; otherwise each prior interaction pushes a
user message from its prompt then an assistant message from its response. -/
def chatHistoryToMessages : Option (List ChatHistoryEntry) → List LiteLLMMessage
  | none => []
  | some h => histLoop h
where
  histLoop : List ChatHistoryEntry → List LiteLLMMessage
    | [] => []
    | e :: rest => ⟨.user, e.prompt⟩ :: ⟨.assistant, e.response⟩ :: histLoop rest

/-- The `messages` list built by `LiteLLMProvider.request` (litellm.ts
lines 81-83): an optional system message from `options.context` (guarded by
JS truthiness, `options.context ? ... : []`), then the flattened history,
then the new user prompt. -/
def buildLiteLLMMessages (context : Option String)
    (history : Option (List ChatHistoryEntry)) (prompt : String) :
    List LiteLLMMessage :=
  (if optTruthy context then [⟨.system, context.getD ""⟩] else [])
    ++ chatHistoryToMessages history ++ [⟨.user, prompt⟩]

/-- `delta` object of a streamed choice (litellm.ts lines 24-26). -/
structure LiteLLMDelta where
  content : Option String
deriving DecidableEq, Repr

/-- `message` object of a buffered choice (litellm.ts lines 20-23). -/
structure LiteLLMRespMessage where
  role : String
  content : String
deriving DecidableEq, Repr

/-- One element of `choices` in a `LiteLLMResponse` (litellm.ts lines
18-28); `message`/`delta` may be absent, `finish_reason` may be null. -/
structure LiteLLMChoice where
  message : Option LiteLLMRespMessage
  delta : Option LiteLLMDelta
  finish_reason : Option String
deriving DecidableEq, Repr

/-- `LiteLLMResponse` (litellm.ts lines 13-34), restricted to the fields
the adapter reads. -/
structure LiteLLMResponse where
  choices : List LiteLLMChoice
deriving DecidableEq, Repr

/-- `response.choices?.[0]?.message?.content` (litellm.ts line 118):
optional chaining, `none` when any link is absent. -/
def extractText (r : LiteLLMResponse) : Option String :=
  match r.choices.head? with
  | none => none
  | some c =>
    match c.message with
    | none => none
    | some m => some m.content

/-- `response.choices?.[0]?.finish_reason` (litellm.ts line 125). -/
def headFinishReason (r : LiteLLMResponse) : Option String :=
  match r.choices.head? with
  | none => none
  | some c => c.finish_reason

/-- Canonical content response `{text, result}` (provider.ts lines 93-96). -/
structure ProviderContentResponse where
  text : String
  result : AiResponseResult
deriving DecidableEq, Repr

/-- Typed failures of the LiteLLM path (`src/lib/errors.ts` classes as
used by the files under src/); each carries the message string built at
the throw site. -/
inductive ProviderError where
  | exceededQuota (message : String)
  | responseError (message : String)
  | noContent (subject : String)
deriving DecidableEq, Repr

/-- The buffered tail of `LiteLLMProvider.request` (litellm.ts lines
114-126): extract `choices?.[0]?.message?.content`; `if (!text)` (absent
or empty, by JS truthiness) throw `ProviderResponseNoContentError`, else
return `{text, result: mapResponseResult(finish_reason)}`. -/
def bufferedResponseToProviderResponse (providerName : String)
    (r : LiteLLMResponse) : Except ProviderError ProviderContentResponse :=
  match extractText r with
  | none => .error (.noContent providerName)
  | some t =>
    if t = "" then .error (.noContent providerName)
    else .ok ⟨t, mapResponseResult (headFinishReason r)⟩

/-- `checkResponse` from the undici client (part_000 lines 7-16): any
status other than 200 reads the body text and throws, 429 as
`ProviderExceededQuotaError` and the rest as `ProviderResponseError`; the
message is `providerName Response: statusCode - errorText`. -/
def checkResponse (statusCode : Nat) (bodyText : String)
    (providerName : String) : Except ProviderError Unit :=
  if statusCode ≠ 200 then
    if statusCode = 429 then
      .error (.exceededQuota
        (providerName ++ " Response: " ++ toString statusCode ++ " - " ++ bodyText))
    else
      .error (.responseError
        (providerName ++ " Response: " ++ toString statusCode ++ " - " ++ bodyText))
  else .ok ()

/-- The static header object built by `litellmUndiciClient.init` (part_000
lines 24-33): bearer auth only when `apiKey` is truthy (non-empty), then
content type and user agent. Later entries of the list override earlier
ones, mirroring JS object spread. -/
def initHeaders (apiKey userAgent : String) : List (String × String) :=
  (if strTruthy apiKey then [("Authorization", "Bearer " ++ apiKey)] else [])
    ++ [("Content-Type", "application/json"), ("User-Agent", userAgent)]

/-- Header lookup with JS object-spread semantics: the last binding of a
key wins. -/
def getHeader (hs : List (String × String)) (k : String) : Option String :=
  match hs.reverse.find? (fun p => p.1 = k) with
  | none => none
  | some p => some p.2

/-- Headers sent by the buffered `request` (part_000 line 44):
`{...client.headers, ...request.extraHeaders, ...(request.virtualKey &&
{Authorization: Bearer virtualKey})}`. -/
def bufferedRequestHeaders (apiKey userAgent : String)
    (extraHeaders : List (String × String)) (virtualKey : Option String) :
    List (String × String) :=
  initHeaders apiKey userAgent ++ extraHeaders
    ++ (if optTruthy virtualKey
        then [("Authorization", "Bearer " ++ virtualKey.getD "")] else [])

/-- Headers sent by the streaming `stream` (part_000 line 74): exactly
`client.headers`, with no extra headers and no per-request override. -/
def streamRequestHeaders (apiKey userAgent : String) : List (String × String) :=
  initHeaders apiKey userAgent

/-- Modelled from the spec: a record of the Event Codec
(`src/lib/event.ts`, not under src/): `parse(text) -> sequence of
{id?, event?, data?}`. -/
structure SSERecord where
  id : Option String
  event : Option String
  data : Option String
deriving DecidableEq, Repr

/-- The empty codec record: no field set yet. -/
def SSERecord.empty : SSERecord := ⟨none, none, none⟩

/-- Does a list of characters start with the given prefix list? -/
def lstartsWith : List Char → List Char → Bool
  | [], _ => true
  | _ :: _, [] => false
  | p :: ps, c :: cs => p = c && lstartsWith ps cs

/-- Split a character list at every newline; always returns at least one
(possibly empty) segment, like splitting text into lines. -/
def splitOnNl : List Char → List (List Char)
  | [] => [[]]
  | c :: cs =>
    if c = '\n' then [] :: splitOnNl cs
    else
      match splitOnNl cs with
      | [] => [[c]]
      | l :: ls => (c :: l) :: ls

/-- Modelled from the spec: one line of SSE-style input updates the record
under construction; an `id:` / `event:` / `data:` prefix sets the
corresponding field to the rest of the line, any other non-blank line is
ignored. -/
def applyLine (line : List Char) (cur : SSERecord) : SSERecord :=
  if lstartsWith "id:".data line then
    { cur with id := some (String.mk (line.drop 3)) }
  else if lstartsWith "event:".data line then
    { cur with event := some (String.mk (line.drop 6)) }
  else if lstartsWith "data:".data line then
    { cur with data := some (String.mk (line.drop 5)) }
  else cur

/-- Modelled from the spec: fold the lines of a chunk into records; a
blank line terminates the record under construction (emitting it when it
has at least one field), and an unterminated trailing record is dropped —
the codec is tolerant of partial input and keeps no state beyond the
current chunk. -/
def recordsOfLines : List (List Char) → SSERecord → List SSERecord
  | [], _ => []
  | line :: rest, cur =>
    if line = [] then
      if cur = SSERecord.empty then recordsOfLines rest SSERecord.empty
      else cur :: recordsOfLines rest SSERecord.empty
    else recordsOfLines rest (applyLine line cur)

/-- Modelled from the spec: `parseEventStream` of `src/lib/event.ts` (not
under src/): parse a text chunk of SSE-formatted data into structured
records, tolerant of partial/multi-record input. -/
def parseEventStream (text : String) : List SSERecord :=
  recordsOfLines (splitOnNl text.data) SSERecord.empty

/-- The lines contributed by one optional field of a record:
`<prefix><v>` when present, nothing when absent. -/
def fieldLine (pre : String) : Option String → List (List Char)
  | none => []
  | some v => [pre.data ++ v.data]

/-- The lines of an encoded record, in the spec's framing order
`id:`, `event:`, `data:`. -/
def encodeLines (r : SSERecord) : List (List Char) :=
  fieldLine "id:" r.id ++ fieldLine "event:" r.event ++ fieldLine "data:" r.data

/-- Modelled from the spec: `encodeEvent` of `src/lib/event.ts` (not under
src/): serialize a record to SSE-style text, `id:`, `event:`, `data:`
lines each terminated by a newline, the frame terminated by a blank
line (`id:<id>\nevent:<kind>\ndata:<json>\n\n`). -/
def encodeEvent (r : SSERecord) : String :=
  String.mk ((encodeLines r).flatMap (fun l => l ++ ['\n']) ++ ['\n'])

/-- Is an optional field value free of newlines (trivially so when
absent)? -/
def nlFree : Option String → Bool
  | none => true
  | some v => ! decide ('\n' ∈ v.data)

/-- A codec record is well-formed when each present field value contains
no newline and at least one field is present. -/
def SSERecord.wellFormed (r : SSERecord) : Bool :=
  nlFree r.id && nlFree r.event && nlFree r.data &&
    ! decide (r = SSERecord.empty)

/-- The structured content of a record's `data` field as seen by
`LiteLLMStreamTransformer._transform` after its checks: either the literal
`[DONE]` sentinel, or the JSON payload it decodes (litellm.ts lines
172-190 read `choices[0].delta.content` and `choices[0].finish_reason`).
The embedding takes the JSON decoding as given; a payload whose shape
breaks the destructuring (`choices` empty or `delta` absent) is modelled
explicitly below. -/
inductive ProviderRecordData where
  | done
  | payload (choices : List LiteLLMChoice)
deriving DecidableEq, Repr

/-- A provider-native record as consumed by the transformer loop: the
codec record with its `data` field decoded. `data = none` stands for a
record whose `data` field is absent or the empty string (both falsy at
`event.data` in litellm.ts line 171). -/
structure ProviderRecord where
  id : Option String
  event : Option String
  data : Option ProviderRecordData
deriving DecidableEq, Repr

/-- The payload of a canonical `AiStreamEvent` (event kinds of
`src/lib/event.ts`): `content` carries `{response: string}`, `end`
carries `{response: ResultKind}`, `error` carries a
`ProviderResponseNoContentError` built from the given subject string. -/
inductive AiStreamEventPayload where
  | content (response : String)
  | ended (response : AiResponseResult)
  | errored (subject : String)
deriving DecidableEq, Repr

/-- A canonical stream event `{id, event, data}`; the kind is determined
by the payload constructor. -/
structure AiStreamEvent where
  id : String
  payload : AiStreamEventPayload
deriving DecidableEq, Repr

/-- Modelled from the spec: `createEventId` of `src/lib/event.ts` (not
under src/); ids are monotonically assigned and unique within one
stream, modelled as a counter rendered to a string. -/
def createEventId (n : Nat) : String := "evt-" ++ toString n

/-- `event.id ?? createEventId()` (litellm.ts lines 162, 184, 193): use
the record's id when present, else draw a fresh generated id, advancing
the counter. -/
def idOrFresh (recId : Option String) (ctr : Nat) : String × Nat :=
  match recId with
  | some i => (i, ctr)
  | none => (createEventId ctr, ctr + 1)

/-- The failure that destroys the transformer: the JS `TypeError` raised
by `const { content } = data.choices[0].delta` when `choices` is empty or
`delta` is absent (litellm.ts line 177), surfaced through `callback(error)`
(line 204). -/
inductive TransformError where
  | typeError
deriving DecidableEq, Repr

/-- Apply the optional caller-supplied chunk-rewrite callback (litellm.ts
lines 179-181), modelled as a pure function. -/
def applyChunkCallback (cb : Option (String → String)) (s : String) : String :=
  match cb with
  | none => s
  | some f => f s

/-- One `_transform` call of `LiteLLMStreamTransformer` (litellm.ts lines
154-206) on the records parsed from one chunk, threading the fresh-id
counter. Returns the events pushed (in order, before encoding), the new
counter, and whether the loop returned early (`return callback()`):
an `error` record pushes one canonical `error` event and returns; a
data-only record (falsy `event`, truthy `data`) is the `[DONE]` sentinel
(return, nothing pushed) or a JSON payload: push a `content` event with
`choices[0].delta.content ?? ''` through the rewrite callback, and when
`finish_reason` is truthy also push an `end` event and return; every
other record is skipped. -/
def transformRecords (providerName : String) (cb : Option (String → String)) :
    List ProviderRecord → Nat →
    Except TransformError (List AiStreamEvent × Nat × Bool)
  | [], ctr => .ok ([], ctr, false)
  | r :: rest, ctr =>
    if r.event = some "error" then
      let ic := idOrFresh r.id ctr
      .ok ([⟨ic.1, .errored (providerName ++ " stream")⟩], ic.2, true)
    else if optTruthy r.event then
      transformRecords providerName cb rest ctr
    else
      match r.data with
      | none => transformRecords providerName cb rest ctr
      | some .done => .ok ([], ctr, true)
      | some (.payload choices) =>
        match choices.head? with
        | none => .error .typeError
        | some c =>
          match c.delta with
          | none => .error .typeError
          | some d =>
            let response := applyChunkCallback cb (d.content.getD "")
            let ic := idOrFresh r.id ctr
            let contentEvent : AiStreamEvent := ⟨ic.1, .content response⟩
            if optTruthy c.finish_reason then
              let ic2 := idOrFresh r.id ic.2
              .ok ([contentEvent,
                    ⟨ic2.1, .ended (mapResponseResult c.finish_reason)⟩], ic2.2, true)
            else
              match transformRecords providerName cb rest ic.2 with
              | .error e => .error e
              | .ok (evs, ctr2, stop) => .ok (contentEvent :: evs, ctr2, stop)

/-- The transformer over a whole raw stream, one `_transform` call per
inbound chunk. The early return of one call ends only that call — the
`Transform` instance keeps no termination state, so records arriving in later chunks
are processed again by the next `_transform` call; only a thrown error
(`callback(error)`) destroys the transformer and stops the stream. -/
def transformStream (providerName : String) (cb : Option (String → String)) :
    List (List ProviderRecord) → Nat →
    Except TransformError (List AiStreamEvent × Nat)
  | [], ctr => .ok ([], ctr)
  | chunk :: rest, ctr =>
    match transformRecords providerName cb chunk ctr with
    | .error e => .error e
    | .ok (evs, ctr1, _stop) =>
      match transformStream providerName cb rest ctr1 with
      | .error e => .error e
      | .ok (evs2, ctr2) => .ok (evs ++ evs2, ctr2)

/-- The payload sequence of a transformer run: the emitted events with
their generated ids erased. -/
def streamPayloads (providerName : String) (cb : Option (String → String))
    (chunks : List (List ProviderRecord)) :
    Except TransformError (List AiStreamEventPayload) :=
  match transformStream providerName cb chunks 0 with
  | .error e => .error e
  | .ok (evs, _) => .ok (evs.map AiStreamEvent.payload)

/-- Modelled from the spec: the Router/Facade loop of `Ai.request`
(`src/lib/ai.ts`, not under src/; exercised by provider.test.ts). The
adapter of each candidate is an injected function returning a canonical
result or a failure. The router tries candidates in order, returns the
first success immediately, and on exhaustion propagates the last failure.
The returned list records which candidates' adapters were invoked, in
order; `none` means the candidate list was empty. -/
def routerRun {C E R : Type} (call : C → Except E R) :
    List C → Option (Except E R) × List C
  | [] => (none, [])
  | c :: cs =>
    match call c with
    | .ok r => (some (.ok r), [c])
    | .error e =>
      let (res, invoked) := routerRun call cs
      (some (res.getD (.error e)), c :: invoked)

/-- A record the transformer loop skips silently (litellm.ts lines
157-200, falling through both guards): its `event` is not `"error"`, and
either `event` is truthy (present and non-empty) or its `data` field is
absent/empty. -/
def isSkippedRecord (r : ProviderRecord) : Bool :=
  !(r.event = some "error") && (optTruthy r.event || r.data = none)

/-- A data-only record carrying a content delta and no (truthy) finish
reason: falsy `event`, JSON payload whose first choice has a `delta`
and a falsy `finish_reason`. -/
def isContentRecord (r : ProviderRecord) : Bool :=
  !optTruthy r.event &&
    (match r.data with
     | some (.payload (c :: _)) => c.delta.isSome && !optTruthy c.finish_reason
     | _ => false)

/-- A data-only record carrying a truthy finish reason: falsy `event`,
JSON payload whose first choice has a `delta` and a truthy
`finish_reason`. -/
def isFinishRecord (r : ProviderRecord) : Bool :=
  !optTruthy r.event &&
    (match r.data with
     | some (.payload (c :: _)) => c.delta.isSome && optTruthy c.finish_reason
     | _ => false)

/-- `choices[0].delta.content ?? ''` of a data-only record (junk default
outside that shape). -/
def recContent (r : ProviderRecord) : String :=
  match r.data with
  | some (.payload (c :: _)) => (c.delta.getD ⟨none⟩).content.getD ""
  | _ => ""

/-- `choices[0].finish_reason` of a data-only record (junk default
outside that shape). -/
def recFinishReason (r : ProviderRecord) : Option String :=
  match r.data with
  | some (.payload (c :: _)) => c.finish_reason
  | _ => none

/-- The canonical `content` payload the transformer emits for a data-only
record: its delta content (defaulted to the empty string) passed through
the optional rewrite callback. -/
def contentPayloadOf (cb : Option (String → String)) (r : ProviderRecord) :
    AiStreamEventPayload :=
  .content (applyChunkCallback cb (recContent r))

/-- A skipped record emits nothing and the loop continues with the rest
of the chunk. -/
theorem transformRecords_skip (p : String) (cb : Option (String → String))
    (r : ProviderRecord) (rest : List ProviderRecord) (ctr : Nat)
    (h : isSkippedRecord r = true) :
    transformRecords p cb (r :: rest) ctr = transformRecords p cb rest ctr := by
  simp only [isSkippedRecord, Bool.and_eq_true, Bool.or_eq_true,
    Bool.not_eq_true', decide_eq_false_iff_not, decide_eq_true_eq] at h
  obtain ⟨h1, h2⟩ := h
  rcases h2 with htru | hdat
  · simp [transformRecords, h1, htru]
  · by_cases htru : optTruthy r.event = true
    · simp [transformRecords, h1, htru]
    · simp [transformRecords, h1, htru, hdat]

/-- A prefix of skipped records contributes nothing. -/
theorem transformRecords_skipAll (p : String) (cb : Option (String → String))
    (pre : List ProviderRecord) (h : ∀ r ∈ pre, isSkippedRecord r = true)
    (rest : List ProviderRecord) (ctr : Nat) :
    transformRecords p cb (pre ++ rest) ctr = transformRecords p cb rest ctr := by
  induction pre with
  | nil => rfl
  | cons r rs ih =>
    rw [List.cons_append, transformRecords_skip p cb r (rs ++ rest) ctr
      (h r (by simp))]
    exact ih (fun x hx => h x (by simp [hx]))

/-- An `error`-kind record makes the `_transform` call push one canonical
`error` event and return, skipping the remaining records of the chunk. -/
theorem transformRecords_error (p : String) (cb : Option (String → String))
    (r : ProviderRecord) (rest : List ProviderRecord) (ctr : Nat)
    (h : r.event = some "error") :
    transformRecords p cb (r :: rest) ctr =
      .ok ([⟨(idOrFresh r.id ctr).1, .errored (p ++ " stream")⟩],
           (idOrFresh r.id ctr).2, true) := by
  simp [transformRecords, h]

/-- A content record pushes one canonical `content` event and the loop
continues with the rest of the chunk. -/
theorem transformRecords_content (p : String) (cb : Option (String → String))
    (r : ProviderRecord) (rest : List ProviderRecord) (ctr : Nat)
    (h : isContentRecord r = true) :
    transformRecords p cb (r :: rest) ctr =
      match transformRecords p cb rest (idOrFresh r.id ctr).2 with
      | .error e => .error e
      | .ok (evs, c2, st) =>
        .ok (⟨(idOrFresh r.id ctr).1,
              contentPayloadOf cb r⟩ :: evs, c2, st) := by
  simp only [isContentRecord, Bool.and_eq_true, Bool.not_eq_true'] at h
  obtain ⟨hev, hrest⟩ := h
  have h1 : ¬ r.event = some "error" := by
    intro hh
    rw [hh] at hev
    exact absurd hev (by decide)
  rcases hdat : r.data with _ | d
  · rw [hdat] at hrest; simp at hrest
  rcases d with _ | choices
  · rw [hdat] at hrest; simp at hrest
  rcases choices with _ | ⟨c, tl⟩
  · rw [hdat] at hrest; simp at hrest
  rw [hdat] at hrest
  simp only [Bool.and_eq_true, Option.isSome_iff_exists, Bool.not_eq_true'] at hrest
  obtain ⟨⟨d0, hd0⟩, hfin⟩ := hrest
  simp [transformRecords, h1, hev, hdat, hd0, hfin, contentPayloadOf,
    recContent, applyChunkCallback]

/-- A finish-reason record pushes a canonical `content` event (its delta
content, possibly empty) and then a canonical `end` event carrying the
mapped result, and the `_transform` call returns. -/
theorem transformRecords_finish (p : String) (cb : Option (String → String))
    (r : ProviderRecord) (rest : List ProviderRecord) (ctr : Nat)
    (h : isFinishRecord r = true) :
    transformRecords p cb (r :: rest) ctr =
      .ok ([⟨(idOrFresh r.id ctr).1, contentPayloadOf cb r⟩,
            ⟨(idOrFresh r.id (idOrFresh r.id ctr).2).1,
             .ended (mapResponseResult (recFinishReason r))⟩],
           (idOrFresh r.id (idOrFresh r.id ctr).2).2, true) := by
  simp only [isFinishRecord, Bool.and_eq_true, Bool.not_eq_true'] at h
  obtain ⟨hev, hrest⟩ := h
  have h1 : ¬ r.event = some "error" := by
    intro hh
    rw [hh] at hev
    exact absurd hev (by decide)
  rcases hdat : r.data with _ | d
  · rw [hdat] at hrest; simp at hrest
  rcases d with _ | choices
  · rw [hdat] at hrest; simp at hrest
  rcases choices with _ | ⟨c, tl⟩
  · rw [hdat] at hrest; simp at hrest
  rw [hdat] at hrest
  simp only [Bool.and_eq_true, Option.isSome_iff_exists] at hrest
  obtain ⟨⟨d0, hd0⟩, hfin⟩ := hrest
  simp [transformRecords, h1, hev, hdat, hd0, hfin, contentPayloadOf,
    recContent, recFinishReason, applyChunkCallback]

/-- Counterexample to claim C1 as stated: a raw stream whose first chunk
holds an `error` record (followed by a content record) and whose second
chunk holds another content record. The transformer emits the canonical
`error` event and skips the rest of the first chunk, but the record in
the second chunk still produces a `content` event after the `error`
event — the early return ends only that `_transform` call, not the
stream. -/
theorem transformer_error_claim_counterexample :
    streamPayloads "litellm" none
      [[⟨some "e1", some "error", none⟩,
        ⟨some "i1", none, some (.payload [⟨none, some ⟨some "late"⟩, none⟩])⟩],
       [⟨some "i2", none, some (.payload [⟨none, some ⟨some "later"⟩, none⟩])⟩]] =
      .ok [.errored "litellm stream", .content "later"] := rfl

/-- Claim C1 as amended: when a chunk consists of skipped records followed
by an `error`-kind record, the `_transform` call for that chunk emits
exactly one canonical `error` event carrying a
`ProviderResponseNoContentError` and processes none of the remaining
records of that chunk; but the stream is not terminated — the records of
later chunks are still processed and their events are emitted after the
`error` event. -/
theorem transformer_error_spec (p : String) (cb : Option (String → String))
    (pre : List ProviderRecord) (err : ProviderRecord)
    (post : List ProviderRecord) (chunks : List (List ProviderRecord))
    (ctr : Nat) (hpre : ∀ r ∈ pre, isSkippedRecord r = true)
    (he : err.event = some "error") :
    transformRecords p cb (pre ++ err :: post) ctr =
      .ok ([⟨(idOrFresh err.id ctr).1, .errored (p ++ " stream")⟩],
           (idOrFresh err.id ctr).2, true) ∧
    transformStream p cb ((pre ++ err :: post) :: chunks) ctr =
      (transformStream p cb chunks (idOrFresh err.id ctr).2).map
        (fun pr =>
          (⟨(idOrFresh err.id ctr).1, .errored (p ++ " stream")⟩ :: pr.1,
           pr.2)) := by
  have h1 : transformRecords p cb (pre ++ err :: post) ctr =
      .ok ([⟨(idOrFresh err.id ctr).1, .errored (p ++ " stream")⟩],
           (idOrFresh err.id ctr).2, true) := by
    rw [transformRecords_skipAll p cb pre hpre]
    exact transformRecords_error p cb err post ctr he
  refine ⟨h1, ?_⟩
  rw [transformStream, h1]
  rcases hrec : transformStream p cb chunks (idOrFresh err.id ctr).2 with e | ⟨evs, c2⟩ <;>
    simp [hrec, Except.map]

/-- Witness for C1: an `error` record preceded by a skipped record and
followed by a content record, with one later content chunk: the error
event is emitted, the same-chunk content record is not, and the later
chunk's content event follows. -/
theorem transformer_error_spec_witness :
    transformRecords "litellm" none
      ([⟨none, some "ping", none⟩] ++
        ⟨some "e1", some "error", none⟩ ::
          [⟨some "i1", none, some (.payload [⟨none, some ⟨some "x"⟩, none⟩])⟩]) 5 =
      .ok ([⟨"e1", .errored ("litellm" ++ " stream")⟩], 5, true) ∧
    transformStream "litellm" none
      (([⟨none, some "ping", none⟩] ++
        ⟨some "e1", some "error", none⟩ ::
          [⟨some "i1", none, some (.payload [⟨none, some ⟨some "x"⟩, none⟩])⟩]) ::
        [[⟨some "i2", none, some (.payload [⟨none, some ⟨some "y"⟩, none⟩])⟩]]) 5 =
      (transformStream "litellm" none
        [[⟨some "i2", none, some (.payload [⟨none, some ⟨some "y"⟩, none⟩])⟩]] 5).map
        (fun pr => (⟨"e1", .errored ("litellm" ++ " stream")⟩ :: pr.1, pr.2)) :=
  transformer_error_spec "litellm" none
    [⟨none, some "ping", none⟩] ⟨some "e1", some "error", none⟩
    [⟨some "i1", none, some (.payload [⟨none, some ⟨some "x"⟩, none⟩])⟩]
    [[⟨some "i2", none, some (.payload [⟨none, some ⟨some "y"⟩, none⟩])⟩]]
    5 (by decide) rfl

/-- Counterexample to claim C10 as stated: a record whose `event` field is
present with value `""` (which is not `"error"`) and whose `data` field
holds a content payload is not skipped — JS `!event.event` is true for the
empty string, so the transformer processes it as a data-only record and
emits a canonical `content` event. -/
theorem transformer_skip_claim_counterexample :
    (some "" ≠ some "error") ∧
    streamPayloads "litellm" none
      [[⟨none, some "", some (.payload [⟨none, some ⟨some "x"⟩, none⟩])⟩]] =
      .ok [.content "x"] :=
  ⟨by decide, rfl⟩

/-- Claim C10 as amended: a record whose `event` field is present and
non-empty with any value other than `"error"`, or whose `event` field is
absent or empty and whose `data` field is absent or empty, produces no
canonical event and raises no error: it is silently skipped and the
`_transform` loop continues with the next record of the chunk. -/
theorem transformer_skipped_record_spec (p : String)
    (cb : Option (String → String)) (r : ProviderRecord)
    (rest : List ProviderRecord) (ctr : Nat) (h : isSkippedRecord r = true) :
    transformRecords p cb (r :: rest) ctr = transformRecords p cb rest ctr :=
  transformRecords_skip p cb r rest ctr h

/-- Witness for C10: a record with a non-error event kind and a record
with no event and no data are both skipped, and the following content
record is still processed. -/
theorem transformer_skipped_record_spec_witness :
    transformRecords "litellm" none
      (⟨some "m1", some "message",
          some (.payload [⟨none, some ⟨some "ignored"⟩, none⟩])⟩ ::
        [⟨some "i1", none, some (.payload [⟨none, some ⟨some "x"⟩, none⟩])⟩]) 0 =
      transformRecords "litellm" none
        [⟨some "i1", none, some (.payload [⟨none, some ⟨some "x"⟩, none⟩])⟩] 0 :=
  transformer_skipped_record_spec "litellm" none
    ⟨some "m1", some "message",
      some (.payload [⟨none, some ⟨some "ignored"⟩, none⟩])⟩
    [⟨some "i1", none, some (.payload [⟨none, some ⟨some "x"⟩, none⟩])⟩] 0
    (by decide)

/-- A chunk of content records emits one `content` event per record, in
order, and the `_transform` call runs to the end of the chunk without an
early return. -/
theorem transformRecords_allContent (p : String)
    (cb : Option (String → String)) (chunk : List ProviderRecord)
    (h : ∀ r ∈ chunk, isContentRecord r = true) (ctr : Nat) :
    ∃ evs ctr2, transformRecords p cb chunk ctr = .ok (evs, ctr2, false) ∧
      evs.map AiStreamEvent.payload = chunk.map (contentPayloadOf cb) := by
  induction chunk generalizing ctr with
  | nil => exact ⟨[], ctr, rfl, rfl⟩
  | cons r rest ih =>
    obtain ⟨evs, ctr2, hrec, hpay⟩ :=
      ih (fun x hx => h x (by simp [hx])) (idOrFresh r.id ctr).2
    refine ⟨⟨(idOrFresh r.id ctr).1, contentPayloadOf cb r⟩ :: evs, ctr2, ?_, ?_⟩
    · rw [transformRecords_content p cb r rest ctr (h r (by simp)), hrec]
    · simp [hpay]

/-- A chunk of content records followed by one finish-reason record emits
one `content` event per content record, then a `content` event for the
finish record, then one `end` event, and the `_transform` call returns. -/
theorem transformRecords_contentThenFinish (p : String)
    (cb : Option (String → String)) (pre : List ProviderRecord)
    (fin : ProviderRecord) (hpre : ∀ r ∈ pre, isContentRecord r = true)
    (hfin : isFinishRecord fin = true) (ctr : Nat) :
    ∃ evs ctr2, transformRecords p cb (pre ++ [fin]) ctr = .ok (evs, ctr2, true) ∧
      evs.map AiStreamEvent.payload =
        pre.map (contentPayloadOf cb) ++
          [contentPayloadOf cb fin,
           .ended (mapResponseResult (recFinishReason fin))] := by
  induction pre generalizing ctr with
  | nil =>
    refine ⟨_, _, transformRecords_finish p cb fin [] ctr hfin, ?_⟩
    simp
  | cons r rest ih =>
    obtain ⟨evs, ctr2, hrec, hpay⟩ := ih (fun x hx => hpre x (by simp [hx]))
      (idOrFresh r.id ctr).2
    refine ⟨⟨(idOrFresh r.id ctr).1, contentPayloadOf cb r⟩ :: evs, ctr2, ?_, ?_⟩
    · rw [List.cons_append,
        transformRecords_content p cb r (rest ++ [fin]) ctr (hpre r (by simp)),
        hrec]
    · simp [hpay]

/-- Trailing empty chunks contribute nothing to the stream. -/
theorem transformStream_allNil (p : String) (cb : Option (String → String))
    (chunks : List (List ProviderRecord)) (h : ∀ c ∈ chunks, c = [])
    (ctr : Nat) : transformStream p cb chunks ctr = .ok ([], ctr) := by
  induction chunks with
  | nil => rfl
  | cons c rest ih =>
    have hc : c = [] := h c (by simp)
    subst hc
    rw [transformStream]
    simp [transformRecords, ih (fun x hx => h x (by simp [hx]))]

/-- Over a whole raw stream whose records, across all chunks, are content
records followed by one final finish-reason record, the transformer emits
the content events in order, then the finish record's content event, then
one `end` event, and nothing after. -/
theorem transformStream_contentThenFinish (p : String)
    (cb : Option (String → String)) (chunks : List (List ProviderRecord))
    (cs : List ProviderRecord) (fin : ProviderRecord)
    (hflat : chunks.flatten = cs ++ [fin])
    (hcs : ∀ r ∈ cs, isContentRecord r = true)
    (hfin : isFinishRecord fin = true) (ctr : Nat) :
    ∃ evs ctr2, transformStream p cb chunks ctr = .ok (evs, ctr2) ∧
      evs.map AiStreamEvent.payload =
        cs.map (contentPayloadOf cb) ++
          [contentPayloadOf cb fin,
           .ended (mapResponseResult (recFinishReason fin))] := by
  induction chunks generalizing cs ctr with
  | nil => simp at hflat
  | cons h t ih =>
    rw [List.flatten_cons] at hflat
    rcases List.append_eq_append_iff.mp hflat with ⟨a, ha, hta⟩ | ⟨c2, hh, hc2⟩
    · -- the head chunk is a prefix of the content records
      subst ha
      have hhc : ∀ r ∈ h, isContentRecord r = true :=
        fun r hr => hcs r (by simp [hr])
      obtain ⟨evs1, c1, hrec1, hpay1⟩ := transformRecords_allContent p cb h hhc ctr
      obtain ⟨evs2, c2v, hrec2, hpay2⟩ :=
        ih a hta (fun r hr => hcs r (by simp [hr])) c1
      refine ⟨evs1 ++ evs2, c2v, ?_, ?_⟩
      · rw [transformStream]
        simp [hrec1, hrec2]
      · simp [hpay1, hpay2]
    · -- the head chunk contains the finish record
      rcases c2 with _ | ⟨x, xs⟩
      · -- splitting point at the chunk boundary: head chunk = cs
        simp only [List.append_nil] at hh
        subst hh
        have hta2 : t.flatten = [] ++ [fin] := by
          simpa using hc2.symm
        obtain ⟨evs1, c1, hrec1, hpay1⟩ :=
          transformRecords_allContent p cb h hcs ctr
        obtain ⟨evs2, c2v, hrec2, hpay2⟩ :=
          ih [] hta2 (by simp) c1
        refine ⟨evs1 ++ evs2, c2v, ?_, ?_⟩
        · rw [transformStream]
          simp [hrec1, hrec2]
        · simp [hpay1, hpay2]
      · -- the finish record lies inside the head chunk
        have hx : fin = x ∧ xs ++ t.flatten = [] := by
          have h0 : [fin] = x :: (xs ++ t.flatten) := by simpa using hc2
          rcases List.cons_eq_cons.mp h0 with ⟨h1, h2⟩
          exact ⟨h1, h2.symm⟩
        obtain ⟨hxf, hnil⟩ := hx
        subst hxf
        have hnil2 : xs = [] ∧ ∀ c ∈ t, c = [] := by
          simp at hnil
          exact hnil
        obtain ⟨hxs, htnil⟩ := hnil2
        subst hxs
        subst hh
        obtain ⟨evs1, c1, hrec1, hpay1⟩ :=
          transformRecords_contentThenFinish p cb cs fin hcs hfin ctr
        refine ⟨evs1, c1, ?_, hpay1⟩
        rw [transformStream]
        simp [hrec1, transformStream_allNil p cb t htnil c1]

/-- Counterexample to claim C2 as stated: a raw stream of N = 1 content
record followed by one finish-reason record. The transformer emits TWO
`content` events — the finish-reason record also passes through the
content-emission path, pushing a `content` event with its (empty) delta
content before the `end` event — where the claim predicts exactly one. -/
theorem transformer_content_end_claim_counterexample :
    streamPayloads "litellm" none
      [[⟨some "i1", none, some (.payload [⟨none, some ⟨some "hi"⟩, none⟩])⟩,
        ⟨some "i2", none, some (.payload [⟨none, some ⟨none⟩, some "stop"⟩])⟩]] =
      .ok [.content "hi", .content "", .ended .COMPLETE] ∧
    [AiStreamEventPayload.content "hi", .content "", .ended .COMPLETE] ≠
      [AiStreamEventPayload.content "hi", .ended .COMPLETE] :=
  ⟨rfl, by decide⟩

/-- Claim C2 as amended: for every raw stream whose records, across all
chunks, are N content records followed by one finish-reason record, the
transformer emits N + 1 canonical `content` events — one per content
record plus one for the finish-reason record, whose delta content
(possibly empty) also passes through the rewrite callback — followed by
exactly one canonical `end` event carrying the mapped `ResultKind`, in
that order, and emits no events after the `end` event. -/
theorem transformer_content_end_spec (p : String)
    (cb : Option (String → String)) (chunks : List (List ProviderRecord))
    (cs : List ProviderRecord) (fin : ProviderRecord)
    (hflat : chunks.flatten = cs ++ [fin])
    (hcs : ∀ r ∈ cs, isContentRecord r = true)
    (hfin : isFinishRecord fin = true) :
    streamPayloads p cb chunks =
      .ok (cs.map (contentPayloadOf cb) ++
        [contentPayloadOf cb fin,
         .ended (mapResponseResult (recFinishReason fin))]) := by
  obtain ⟨evs, c2, hrec, hpay⟩ :=
    transformStream_contentThenFinish p cb chunks cs fin hflat hcs hfin 0
  simp [streamPayloads, hrec, hpay]

/-- Witness for C2: one content record carrying `"hi"` in its own chunk,
then a finish-reason record (`finish_reason: "stop"`, empty delta) in a
second chunk: the emitted payloads are `content "hi"`, `content ""`,
`end COMPLETE`. -/
theorem transformer_content_end_spec_witness :
    streamPayloads "litellm" none
      [[⟨some "i1", none, some (.payload [⟨none, some ⟨some "hi"⟩, none⟩])⟩],
       [⟨some "i2", none, some (.payload [⟨none, some ⟨none⟩, some "stop"⟩])⟩]] =
      .ok ([⟨some "i1", none,
              some (.payload [⟨none, some ⟨some "hi"⟩, none⟩])⟩].map
            (contentPayloadOf none) ++
        [contentPayloadOf none
            ⟨some "i2", none, some (.payload [⟨none, some ⟨none⟩, some "stop"⟩])⟩,
         .ended (mapResponseResult (recFinishReason
            ⟨some "i2", none, some (.payload [⟨none, some ⟨none⟩, some "stop"⟩])⟩))]) :=
  transformer_content_end_spec "litellm" none
    [[⟨some "i1", none, some (.payload [⟨none, some ⟨some "hi"⟩, none⟩])⟩],
     [⟨some "i2", none, some (.payload [⟨none, some ⟨none⟩, some "stop"⟩])⟩]]
    [⟨some "i1", none, some (.payload [⟨none, some ⟨some "hi"⟩, none⟩])⟩]
    ⟨some "i2", none, some (.payload [⟨none, some ⟨none⟩, some "stop"⟩])⟩
    rfl (by decide) (by decide)

/-- The history loop flattens each prior interaction into a user/assistant
pair, in order. -/
theorem histLoop_eq_flatMap (l : List ChatHistoryEntry) :
    chatHistoryToMessages.histLoop l =
      l.flatMap (fun e => [⟨.user, e.prompt⟩, ⟨.assistant, e.response⟩]) := by
  induction l with
  | nil => rfl
  | cons e rest ih => simp [chatHistoryToMessages.histLoop, ih]

/-- The history loop contributes two messages per history entry. -/
theorem histLoop_length (l : List ChatHistoryEntry) :
    (chatHistoryToMessages.histLoop l).length = 2 * l.length := by
  induction l with
  | nil => rfl
  | cons e rest ih => simp [chatHistoryToMessages.histLoop, ih]; ring

/-- Claim C7: the LiteLLM adapter builds the native messages list as one
system message from `options.context` when the context is truthy (the
source and the claim both guard with the JS ternary `context ? 1 : 0`,
under which an empty context contributes nothing), then one user message
from the prompt and one assistant message from the response of each
history entry in order, then the new user prompt; its length is
`(context ? 1 : 0) + 2 * |history| + 1`. -/
theorem buildLiteLLMMessages_shape (ctx : Option String)
    (hist : Option (List ChatHistoryEntry)) (prompt : String) :
    buildLiteLLMMessages ctx hist prompt =
      (if optTruthy ctx then [⟨.system, ctx.getD ""⟩] else [])
        ++ (hist.getD []).flatMap
            (fun e => [⟨.user, e.prompt⟩, ⟨.assistant, e.response⟩])
        ++ [⟨.user, prompt⟩] ∧
    (buildLiteLLMMessages ctx hist prompt).length =
      (if optTruthy ctx then 1 else 0) + 2 * (hist.getD []).length + 1 := by
  have hh : chatHistoryToMessages hist = chatHistoryToMessages.histLoop (hist.getD []) := by
    cases hist <;> rfl
  constructor
  · rw [buildLiteLLMMessages, hh, histLoop_eq_flatMap]
  · rw [buildLiteLLMMessages, hh]
    rcases h : optTruthy ctx <;>
      simp [histLoop_length, Nat.add_comm, Nat.add_assoc, Nat.add_left_comm]

/-- Claim C6: `mapResponseResult` returns `COMPLETE` exactly on `"stop"`,
`INCOMPLETE_MAX_TOKENS` exactly on `"length"`, and `INCOMPLETE_UNKNOWN`
for every other value, including any other string and `undefined`. -/
theorem mapResponseResult_spec :
    (∀ r : Option String, mapResponseResult r = .COMPLETE ↔ r = some "stop") ∧
    (∀ r : Option String,
      mapResponseResult r = .INCOMPLETE_MAX_TOKENS ↔ r = some "length") ∧
    mapResponseResult none = .INCOMPLETE_UNKNOWN ∧
    (∀ s : String, s ≠ "stop" → s ≠ "length" →
      mapResponseResult (some s) = .INCOMPLETE_UNKNOWN) := by
  have key : ∀ r : Option String, mapResponseResult r =
      if r = some "stop" then .COMPLETE
      else if r = some "length" then .INCOMPLETE_MAX_TOKENS
      else .INCOMPLETE_UNKNOWN := by
    intro r
    rcases r with _ | s
    · rfl
    · by_cases h1 : s = "stop"
      · subst h1; rfl
      · by_cases h2 : s = "length"
        · subst h2; rfl
        · simp only [Option.some.injEq, h1, h2, if_false]
          rw [mapResponseResult.eq_def]
          split <;> simp_all
  refine ⟨fun r => ?_, fun r => ?_, rfl, fun s h1 h2 => ?_⟩ <;> rw [key]
  · split
    · simp_all
    · split <;> simp_all
  · split
    · simp_all
    · split <;> simp_all
  · simp [h1, h2]

/-- Witness for C6 at the concrete finish reason `"tool_calls"`. -/
theorem mapResponseResult_spec_witness :
    mapResponseResult (some "tool_calls") = .INCOMPLETE_UNKNOWN :=
  mapResponseResult_spec.2.2.2 "tool_calls" (by decide) (by decide)

/-- Claim C4: on a successful buffered upstream response, the adapter
throws the no-content error exactly when `choices?.[0]?.message?.content`
is absent or empty, and otherwise returns `{text, result}` with the
extracted text and the mapped finish reason. -/
theorem bufferedResponse_spec (pname : String) (r : LiteLLMResponse) :
    ((extractText r = none ∨ extractText r = some "") →
      bufferedResponseToProviderResponse pname r = .error (.noContent pname)) ∧
    (∀ t, extractText r = some t → t ≠ "" →
      bufferedResponseToProviderResponse pname r =
        .ok ⟨t, mapResponseResult (headFinishReason r)⟩) := by
  constructor
  · rintro (h | h) <;> simp [bufferedResponseToProviderResponse, h]
  · intro t ht hne
    simp [bufferedResponseToProviderResponse, ht, hne]

/-- Witness for C4: a response whose first choice carries a message with
content `"hello"` and finish reason `"stop"` yields `{text := "hello",
result := COMPLETE}`, and one with empty content throws no-content. -/
theorem bufferedResponse_spec_witness :
    bufferedResponseToProviderResponse "litellm"
        ⟨[⟨some ⟨"assistant", "hello"⟩, none, some "stop"⟩]⟩ =
      .ok ⟨"hello", .COMPLETE⟩ ∧
    bufferedResponseToProviderResponse "litellm"
        ⟨[⟨some ⟨"assistant", ""⟩, none, some "stop"⟩]⟩ =
      .error (.noContent "litellm") := by
  constructor
  · exact (bufferedResponse_spec "litellm"
      ⟨[⟨some ⟨"assistant", "hello"⟩, none, some "stop"⟩]⟩).2 "hello"
      (by decide) (by decide)
  · exact (bufferedResponse_spec "litellm"
      ⟨[⟨some ⟨"assistant", ""⟩, none, some "stop"⟩]⟩).1 (Or.inr (by decide))

/-- Counterexample to claim C3 as stated: status 201 is a 2xx success,
yet the response check of the undici client raises `ResponseError` — the
code tests `statusCode !== 200`, not membership in the 2xx class. -/
theorem checkResponse_claim_counterexample :
    200 ≤ 201 ∧ 201 < 300 ∧
    checkResponse 201 "created" "litellm" =
      .error (.responseError "litellm Response: 201 - created") :=
  ⟨by decide, by decide, rfl⟩

/-- Claim C3 as amended: the response-check step raises exactly when the
upstream status differs from 200; status 429 raises `ExceededQuotaError`,
any other non-200 status raises `ResponseError`, both messages embedding
the provider name, the status code, and the body text verbatim; on status
200 the check returns without raising. -/
theorem checkResponse_classification (s : Nat) (b p : String) :
    (s = 200 → checkResponse s b p = .ok ()) ∧
    (s = 429 → checkResponse s b p =
      .error (.exceededQuota (p ++ " Response: " ++ toString s ++ " - " ++ b))) ∧
    (s ≠ 200 → s ≠ 429 → checkResponse s b p =
      .error (.responseError (p ++ " Response: " ++ toString s ++ " - " ++ b))) := by
  refine ⟨fun h => ?_, fun h => ?_, fun h1 h2 => ?_⟩ <;>
    simp_all [checkResponse]

/-- Witness for C3 at the concrete statuses 200, 429 and 500. -/
theorem checkResponse_classification_witness :
    checkResponse 200 "OK" "litellm" = .ok () ∧
    checkResponse 429 "Rate limit exceeded" "litellm" =
      .error (.exceededQuota "litellm Response: 429 - Rate limit exceeded") ∧
    checkResponse 500 "Internal Server Error" "litellm" =
      .error (.responseError "litellm Response: 500 - Internal Server Error") :=
  ⟨(checkResponse_classification 200 "OK" "litellm").1 rfl,
   (checkResponse_classification 429 "Rate limit exceeded" "litellm").2.1 rfl,
   (checkResponse_classification 500 "Internal Server Error" "litellm").2.2
     (by decide) (by decide)⟩

/-- Counterexample to claim C9 as stated: the outgoing streaming request
sends exactly the static headers built by `init` — a caller-supplied
extra header is not among them and the `Authorization` value is the
configured key, with no per-request override applied. -/
theorem streamHeaders_claim_counterexample :
    streamRequestHeaders "key" "agent/1.0" =
      [("Authorization", "Bearer key"), ("Content-Type", "application/json"),
       ("User-Agent", "agent/1.0")] ∧
    ("X-Custom", "1") ∉ streamRequestHeaders "key" "agent/1.0" ∧
    getHeader (streamRequestHeaders "key" "agent/1.0") "Authorization" =
      some "Bearer key" :=
  ⟨by decide, by decide, by decide⟩

/-- Claim C9 as amended: `init` always builds `Content-Type:
application/json` and the configured `User-Agent`, and includes
`Authorization: Bearer apiKey` exactly when the key is non-empty; the
caller-supplied extra headers and the per-request override bearer token
are applied by the buffered request, while the streaming request sends
only the static headers. -/
theorem clientHeaders_spec (apiKey ua vk : String)
    (extras : List (String × String)) :
    getHeader (initHeaders apiKey ua) "Content-Type" = some "application/json" ∧
    getHeader (initHeaders apiKey ua) "User-Agent" = some ua ∧
    (apiKey ≠ "" → getHeader (initHeaders apiKey ua) "Authorization" =
      some ("Bearer " ++ apiKey)) ∧
    (apiKey = "" → getHeader (initHeaders apiKey ua) "Authorization" = none) ∧
    streamRequestHeaders apiKey ua = initHeaders apiKey ua ∧
    (∀ e ∈ extras, e ∈ bufferedRequestHeaders apiKey ua extras (some vk)) ∧
    (vk ≠ "" → getHeader (bufferedRequestHeaders apiKey ua extras (some vk))
      "Authorization" = some ("Bearer " ++ vk)) := by
  refine ⟨?_, ?_, fun h => ?_, fun h => ?_, rfl, fun e he => ?_, fun h => ?_⟩
  · by_cases h : apiKey = "" <;>
      simp [getHeader, initHeaders, strTruthy, h, List.find?]
  · by_cases h : apiKey = "" <;>
      simp [getHeader, initHeaders, strTruthy, h, List.find?]
  · simp [getHeader, initHeaders, strTruthy, h, List.find?]
  · simp [getHeader, initHeaders, strTruthy, h, List.find?]
  · simp [bufferedRequestHeaders, he]
  · simp [getHeader, bufferedRequestHeaders, optTruthy, strTruthy, h,
      List.find?]

/-- Witness for C9 at a concrete configuration, with and without an api
key, with one extra header and a per-request override token. -/
theorem clientHeaders_spec_witness :
    getHeader (initHeaders "k1" "ua/1") "Content-Type" =
      some "application/json" ∧
    getHeader (initHeaders "k1" "ua/1") "Authorization" = some "Bearer k1" ∧
    getHeader (initHeaders "" "ua/1") "Authorization" = none ∧
    ("X-Custom", "1") ∈ bufferedRequestHeaders "k1" "ua/1" [("X-Custom", "1")]
      (some "vk9") ∧
    getHeader (bufferedRequestHeaders "k1" "ua/1" [("X-Custom", "1")]
      (some "vk9")) "Authorization" = some "Bearer vk9" :=
  ⟨(clientHeaders_spec "k1" "ua/1" "vk9" [("X-Custom", "1")]).1,
   (clientHeaders_spec "k1" "ua/1" "vk9" [("X-Custom", "1")]).2.2.1 (by decide),
   (clientHeaders_spec "" "ua/1" "vk9" [("X-Custom", "1")]).2.2.2.1 rfl,
   (clientHeaders_spec "k1" "ua/1" "vk9" [("X-Custom", "1")]).2.2.2.2.2.1
     ("X-Custom", "1") (by simp),
   (clientHeaders_spec "k1" "ua/1" "vk9" [("X-Custom", "1")]).2.2.2.2.2.2
     (by decide)⟩

/-- Claim C5: the Router tries candidates in order; when every candidate
before `k` fails and `k`'s adapter succeeds with result `r`, the Router
returns exactly `r`, the invoked adapters are exactly those of the
candidates up to and including `k`, and the candidates after `k` are
never invoked. -/
theorem routerRun_first_success {C E R : Type} (call : C → Except E R)
    (pre : List C) (k : C) (post : List C) (r : R)
    (hpre : ∀ c ∈ pre, ∃ e, call c = .error e) (hk : call k = .ok r) :
    routerRun call (pre ++ k :: post) = (some (.ok r), pre ++ [k]) := by
  induction pre with
  | nil => simp [routerRun, hk]
  | cons c cs ih =>
    obtain ⟨e, he⟩ := hpre c (by simp)
    have ihr := ih (fun x hx => hpre x (by simp [hx]))
    simp [routerRun, he, ihr]

/-- A present field value accepted by `nlFree` contains no newline. -/
theorem nlFree_elim (v : String) (h : nlFree (some v) = true) : '\n' ∉ v.data := by
  simp [nlFree] at h
  exact h

/-- Splitting at newlines peels off a newline-free leading segment. -/
theorem splitOnNl_append (a b : List Char) (h : '\n' ∉ a) :
    splitOnNl (a ++ '\n' :: b) = a :: splitOnNl b := by
  induction a with
  | nil => simp [splitOnNl]
  | cons c cs ih =>
    have hc : c ≠ '\n' := fun hh => h (hh ▸ List.mem_cons_self c cs)
    have ih2 := ih (fun hm => h (List.mem_cons_of_mem c hm))
    simp [splitOnNl, hc, ih2]

/-- Splitting the encoded framing — newline-free lines each terminated by
a newline, then the blank-line terminator — recovers the lines, followed
by the two empty segments produced by the final `\n\n`. -/
theorem splitOnNl_encode (ls : List (List Char)) (h : ∀ l ∈ ls, '\n' ∉ l) :
    splitOnNl (ls.flatMap (fun l => l ++ ['\n']) ++ ['\n']) = ls ++ [[], []] := by
  induction ls with
  | nil => simp [splitOnNl]
  | cons l rest ih =>
    have h1 : '\n' ∉ l := h l (by simp)
    have ih2 := ih (fun x hx => h x (by simp [hx]))
    have hassoc : (l :: rest).flatMap (fun l => l ++ ['\n']) ++ ['\n'] =
        l ++ '\n' :: (rest.flatMap (fun l => l ++ ['\n']) ++ ['\n']) := by simp
    rw [hassoc, splitOnNl_append _ _ h1, ih2]
    simp

/-- Claim C8: Event Codec round-trip law — parsing the text produced by
encoding a well-formed record yields exactly that one record,
`parse(encode(r)) == [r]`. -/
theorem parseEventStream_encodeEvent (r : SSERecord) (h : r.wellFormed = true) :
    parseEventStream (encodeEvent r) = [r] := by
  obtain ⟨id, ev, da⟩ := r
  simp only [SSERecord.wellFormed, Bool.and_eq_true, Bool.not_eq_eq_eq_not,
    Bool.not_true, decide_eq_false_iff_not] at h
  obtain ⟨⟨⟨hid, hev⟩, hda⟩, hne⟩ := h
  have hstep : parseEventStream (encodeEvent ⟨id, ev, da⟩) =
      recordsOfLines (splitOnNl
        ((encodeLines ⟨id, ev, da⟩).flatMap (fun l => l ++ ['\n']) ++ ['\n']))
        SSERecord.empty := rfl
  rw [hstep, splitOnNl_encode]
  · rcases id with _ | vi <;> rcases ev with _ | ve <;> rcases da with _ | vd
    · exact absurd rfl hne
    all_goals rfl
  · intro l hl
    rcases id with _ | vi <;> rcases ev with _ | ve <;> rcases da with _ | vd <;>
      simp [encodeLines, fieldLine] at hl <;>
      (rcases hl with h1 | h2 | h3 <;> subst_vars <;> simp <;>
        first
        | exact fun hh => (nlFree_elim _ hid) hh
        | exact fun hh => (nlFree_elim _ hev) hh
        | exact fun hh => (nlFree_elim _ hda) hh)

/-- Witness for C8 at a concrete canonical `content` event record. -/
theorem parseEventStream_encodeEvent_witness :
    parseEventStream (encodeEvent ⟨some "7", some "content", some "hello"⟩) =
      [⟨some "7", some "content", some "hello"⟩] :=
  parseEventStream_encodeEvent ⟨some "7", some "content", some "hello"⟩
    (by decide)

/-- Witness for C5: with candidates `[0, 1, 2]` where candidate 0 fails
and candidate 1 succeeds, the router returns candidate 1's result and
invokes only candidates 0 and 1. -/
theorem routerRun_first_success_witness :
    routerRun
      (fun n : Nat => if n = 0 then .error "boom" else .ok (n * 10))
      ([0] ++ 1 :: [2]) = (some (.ok 10), [0] ++ [1]) :=
  routerRun_first_success
    (fun n : Nat => if n = 0 then .error "boom" else .ok (n * 10))
    [0] 1 [2] 10
    (fun c hc => by
      simp only [List.mem_singleton] at hc
      exact ⟨"boom", by simp [hc]⟩)
    rfl
